import Mathlib

/-!
Verification of the crun `update` command serializer (src/update.c), the
`spec` command (src/spec.c) and the test-helper feature probe
(tests/init.c), against the natural-language specification of the
resource-update document codec.

The C code is embedded shallowly: the global `values` option array becomes a
function `Fin 14 → Option String`, the yajl generator output becomes an
inductive `Json` value, `strtoul` becomes `strtoul10` with its exact
errno/ERANGE behaviour, and the fatal `error (EXIT_FAILURE, ...)` paths
become `Except.error`.
-/

set_option maxHeartbeats 1000000

/-- JSON values as produced by the yajl generator: integers (yajl_gen_integer
takes a long long), strings, and objects in insertion order. -/
inductive Json where
  | num (n : Int)
  | str (s : String)
  | obj (fields : List (String × Json))

/-- One row of the `descriptors` table of update.c: option id, section index
into `sections`, JSON key, and whether the value is numeric. -/
structure Descriptor where
  id : Nat
  sectionIdx : Fin 4
  key : String
  numeric : Bool
deriving DecidableEq, Repr

instance : Inhabited Descriptor := ⟨⟨0, 0, "", false⟩⟩

/-- The `sections` array of update.c. -/
def sectionName (i : Fin 4) : String :=
  [ "blockIO", "cpu", "memory", "pids" ].getD i.val ""

/-- The `descriptors` table of update.c (the all-zero terminator row is never
reached by the loops, which run over exactly 14 indices). Row `j` corresponds
to option id `1000 + j` (FIRST_VALUE = 1000). -/
def descrList : List Descriptor :=
  [ ⟨1000, 0, "weight", true⟩,
    ⟨1001, 1, "period", true⟩,
    ⟨1002, 1, "quota", true⟩,
    ⟨1003, 1, "share", true⟩,
    ⟨1004, 1, "realtimePeriod", true⟩,
    ⟨1005, 1, "realtimeRuntime", true⟩,
    ⟨1006, 1, "cpus", false⟩,
    ⟨1007, 1, "mems", false⟩,
    ⟨1008, 2, "kernel", true⟩,
    ⟨1009, 2, "kernelTCP", true⟩,
    ⟨1010, 2, "limit", true⟩,
    ⟨1011, 2, "reservation", true⟩,
    ⟨1012, 2, "swap", true⟩,
    ⟨1013, 3, "limit", true⟩ ]

/-- Descriptor of value slot `j` (C: `descriptors[j]`). -/
def descr (j : Fin 14) : Descriptor := descrList.getD j.val default

/-- The `values` global array of update.c: one optional raw string per
option id, indexed by `id - FIRST_VALUE`. -/
def Values := Fin 14 → Option String

/-- The loop index list `0 .. 13` (C: `for (j = 0; j < LAST_VALUE - FIRST_VALUE; j++)`). -/
def allIdx : List (Fin 14) := [0, 1, 2, 3, 4, 5, 6, 7, 8, 9, 10, 11, 12, 13]

/-- The loop index list `0 .. 3` over sections. -/
def allSec : List (Fin 4) := [0, 1, 2, 3]

/-- ULONG_MAX on the LP64 targets crun builds for. -/
def ULONG_MAX : Nat := 2 ^ 64 - 1

/-- C `isspace` in the POSIX locale, as consumed by strtoul. -/
def isSpaceChar (c : Char) : Bool := c.toNat = 32 || (9 ≤ c.toNat && c.toNat ≤ 13)

/-- Decimal digit test on a char. -/
def isDigitChar (c : Char) : Bool := 48 ≤ c.toNat && c.toNat ≤ 57

/-- Numeric value of a digit char. -/
def digitVal (c : Char) : Nat := c.toNat - 48

/-- Accumulate a most-significant-first digit char list into a number. -/
def parseDigits (cs : List Char) : Nat :=
  cs.foldl (fun a c => a * 10 + digitVal c) 0

/-- Consume the optional sign accepted by strtoul; returns (negate?, rest). -/
def dropSign (cs : List Char) : Bool × List Char :=
  match cs with
  | [] => (false, [])
  | c :: rest =>
      if c.toNat = 45 then (true, rest)
      else if c.toNat = 43 then (false, rest)
      else (false, c :: rest)

/-- Result of strtoul: the returned unsigned long and whether errno was set
to ERANGE (the only errno strtoul sets; no conversion is NOT an error). -/
structure StrtoulResult where
  value : Nat
  rangeErr : Bool
deriving DecidableEq, Repr

/-- C `strtoul (s, NULL, 10)`: skip leading whitespace, consume an optional
sign, consume a maximal run of decimal digits (possibly empty, in which case
the result is 0 and errno is untouched); on magnitude overflow return
ULONG_MAX with ERANGE; a leading minus negates in unsigned arithmetic. -/
def strtoul10 (s : String) : StrtoulResult :=
  let cs := s.data.dropWhile isSpaceChar
  let sr := dropSign cs
  let ds := sr.2.takeWhile isDigitChar
  let n := parseDigits ds
  if n > ULONG_MAX then ⟨ULONG_MAX, true⟩
  else if sr.1 then ⟨(2 ^ 64 - n) % 2 ^ 64, false⟩
  else ⟨n, false⟩

/-- The conversion `long value = strtoul (...)` on LP64: unsigned longs at or
above 2^63 become negative by two's-complement reinterpretation. -/
def toLong (n : Nat) : Int :=
  if n < 2 ^ 63 then (n : Int) else (n : Int) - 2 ^ 64

/-- C: `has_sections[i]` after the marking loops of build_file. The second
loop (over the first four value slots) is subsumed by the first loop over all
fourteen slots, so the union is the first loop alone. -/
def hasSection (v : Values) (i : Fin 4) : Bool :=
  allIdx.any (fun j => (v j).isSome && (descr j).sectionIdx == i)

/-- One iteration of the inner field-emission loop of build_file for value
slot `j`: nothing if unset; a string entry for non-numeric descriptors; for
numeric descriptors the strtoul conversion, fatal (`error (EXIT_FAILURE,
errno, "invalid setting")`) exactly when errno was set, i.e. on ERANGE. -/
def emitField (v : Values) (j : Fin 14) : Except Unit (List (String × Json)) :=
  match v j with
  | none => .ok []
  | some s =>
      let d := descr j
      if d.numeric then
        let r := strtoul10 s
        if r.rangeErr then .error ()
        else .ok [(d.key, Json.num (toLong r.value))]
      else .ok [(d.key, Json.str s)]

/-- Run `emitField` over a list of slots, concatenating the entries in loop
order; the first fatal conversion aborts the whole serialization. -/
def emitList (v : Values) : List (Fin 14) → Except Unit (List (String × Json))
  | [] => .ok []
  | j :: rest => do
      let x ← emitField v j
      let xs ← emitList v rest
      pure (x ++ xs)

/-- The inner loop of build_file for section `i`: all value slots in declared
descriptor order, restricted to the section. -/
def emitSection (v : Values) (i : Fin 4) : Except Unit (List (String × Json)) :=
  emitList v (allIdx.filter (fun j => (descr j).sectionIdx == i))

/-- The outer loop of build_file: sections in declared order, skipping those
with no set field, each yielding one `(name, object)` entry. -/
def buildSections (v : Values) : List (Fin 4) → Except Unit (List (String × Json))
  | [] => .ok []
  | i :: rest => do
      let head ←
        if hasSection v i then do
          let fs ← emitSection v i
          pure [(sectionName i, Json.obj fs)]
        else pure []
      let tail ← buildSections v rest
      pure (head ++ tail)

/-- `build_file` of update.c: the serialized canonical document, or a fatal
validation error (the C process exits) when a numeric conversion overflows. -/
def build_file (v : Values) : Except Unit Json := do
  let l ← buildSections v allSec
  pure (Json.obj l)

/-- The empty option state: no flag was supplied. -/
def emptyValues : Values := fun _ => none

/-- Fuel-driven least-significant-first decimal digits of a natural number
(kernel-reducible replacement for division-based recursion). -/
def natDigitsRev : Nat → Nat → List Nat
  | 0, _ => []
  | fuel + 1, n => if n = 0 then [] else n % 10 :: natDigitsRev fuel (n / 10)

/-- Decimal rendering of a natural number (the glue from the abstract
Document back to an option string; inverse of the digit parse). -/
def renderNat (n : Nat) : String :=
  if n = 0 then "0"
  else ⟨(natDigitsRev n n).reverse.map (fun d => Char.ofNat (48 + d))⟩

/-- The spec's ResourceDocument restricted to the fourteen
option-representable fields: numeric fields hold unsigned integers, the two
cpuset fields hold free-form strings, every field independently optional. -/
structure Document where
  blkioWeight : Option Nat
  cpuPeriod : Option Nat
  cpuQuota : Option Nat
  cpuShare : Option Nat
  cpuRtPeriod : Option Nat
  cpuRtRuntime : Option Nat
  cpusetCpus : Option String
  cpusetMems : Option String
  kernelMemory : Option Nat
  kernelMemoryTcp : Option Nat
  memoryLimit : Option Nat
  memoryReservation : Option Nat
  memorySwap : Option Nat
  pidsLimit : Option Nat
deriving DecidableEq, Repr

/-- The Document with no field set. -/
def emptyDoc : Document :=
  ⟨none, none, none, none, none, none, none, none, none, none, none, none, none, none⟩

/-- The fourteen fields of a Document as option strings, in value-slot
order: numeric fields rendered in decimal, cpuset fields verbatim. -/
def dvList (d : Document) : List (Option String) :=
  [ d.blkioWeight.map renderNat,
    d.cpuPeriod.map renderNat,
    d.cpuQuota.map renderNat,
    d.cpuShare.map renderNat,
    d.cpuRtPeriod.map renderNat,
    d.cpuRtRuntime.map renderNat,
    d.cpusetCpus,
    d.cpusetMems,
    d.kernelMemory.map renderNat,
    d.kernelMemoryTcp.map renderNat,
    d.memoryLimit.map renderNat,
    d.memoryReservation.map renderNat,
    d.memorySwap.map renderNat,
    d.pidsLimit.map renderNat ]

/-- The option-array state corresponding to a Document: supplying each set
field as the matching command-line flag value. -/
def docValues (d : Document) : Values := fun j => (dvList d).getD j.val none

/-- The twelve numeric fields of a Document. -/
def numFields (d : Document) : List (Option Nat) :=
  [ d.blkioWeight, d.cpuPeriod, d.cpuQuota, d.cpuShare, d.cpuRtPeriod,
    d.cpuRtRuntime, d.kernelMemory, d.kernelMemoryTcp, d.memoryLimit,
    d.memoryReservation, d.memorySwap, d.pidsLimit ]

/-- Executable check that every set numeric field of a Document is below the
given bound. -/
def allNumLtB (d : Document) (bound : Nat) : Bool :=
  (numFields d).all (fun o => o.all (fun n => decide (n < bound)))

/-- Executable check that no set numeric value overflows strtoul (the only
condition under which build_file aborts). -/
def noRangeErrB (v : Values) : Bool :=
  allIdx.all (fun j =>
    match v j with
    | none => true
    | some s => !(descr j).numeric || !(strtoul10 s).rangeErr)

/-- An optional object entry: one binding if the value is present, nothing
otherwise. -/
def optEntry (k : String) (o : Option Json) : List (String × Json) :=
  match o with
  | none => []
  | some x => [(k, x)]

/-- The JSON value a set field serializes to: numeric descriptors as the
strtoul-converted number (after the long cast), others as the raw string. -/
def fieldJson (v : Values) (j : Fin 14) : Option Json :=
  (v j).map (fun s =>
    if (descr j).numeric then Json.num (toLong (strtoul10 s).value) else Json.str s)

/-- Canonical section body per the spec: exactly the set fields of the
section, in declared descriptor order. -/
def canonicalFields (v : Values) (i : Fin 4) : List (String × Json) :=
  ((allIdx.filter (fun j => (descr j).sectionIdx == i)).map
    (fun j => optEntry (descr j).key (fieldJson v j))).flatten

/-- Canonical top level per the spec: exactly the sections with at least one
set field, in declared order blockIO, cpu, memory, pids. -/
def canonicalSections (v : Values) : List (String × Json) :=
  (allSec.map (fun i =>
    optEntry (sectionName i)
      (if hasSection v i then some (Json.obj (canonicalFields v i)) else none))).flatten

/-- Canonical serialized document per the spec's words (the refinement target
for build_file). -/
def canonicalJson (v : Values) : Json := Json.obj (canonicalSections v)

/-- Serialization of a Document: supply its fields as option values and run
build_file of update.c. -/
def serializeDoc (d : Document) : Except Unit Json := build_file (docValues d)

/-- First binding of a key in a JSON object body. -/
def jlookup (l : List (String × Json)) (k : String) : Option Json :=
  match l with
  | [] => none
  | (k2, x) :: rest => if k2 = k then some x else jlookup rest k

/-- Modelled from the spec: the file-side reader (libcrun_container_update's
JSON parsing is not under src/). Fetch a section object of the canonical
top-level map; a missing section reads as empty. -/
def getSection (js : Json) (name : String) : List (String × Json) :=
  match js with
  | Json.obj l =>
      match jlookup l name with
      | some (Json.obj fs) => fs
      | _ => []
  | _ => []

/-- Modelled from the spec: a numeric field holds an unsigned base-10
integer, so a present binding must be a non-negative JSON number. -/
def numOf (o : Option Json) : Except Unit (Option Nat) :=
  match o with
  | none => .ok none
  | some (Json.num n) => if n < 0 then .error () else .ok (some n.toNat)
  | some _ => .error ()

/-- Modelled from the spec: a cpuset field holds a free-form string. -/
def strOf (o : Option Json) : Except Unit (Option String) :=
  match o with
  | none => .ok none
  | some (Json.str s) => .ok (some s)
  | some _ => .error ()

/-- Read a numeric field of a section body. -/
def getNum (fs : List (String × Json)) (k : String) : Except Unit (Option Nat) :=
  numOf (jlookup fs k)

/-- Read a cpuset field of a section body. -/
def getStr (fs : List (String × Json)) (k : String) : Except Unit (Option String) :=
  strOf (jlookup fs k)

/-- Modelled from the spec: `parseFromFile` for the canonical update
document (top-level map with optional section keys blockIO, cpu, memory,
pids and the declared field keys), yielding a Document or a validation
error. The reader is lookup-based, so hand-authored key order is accepted. -/
def parseDoc (js : Json) : Except Unit Document := do
  let bio := getSection js "blockIO"
  let cpu := getSection js "cpu"
  let mem := getSection js "memory"
  let pid := getSection js "pids"
  let w ← getNum bio "weight"
  let cp ← getNum cpu "period"
  let cq ← getNum cpu "quota"
  let cs ← getNum cpu "share"
  let rp ← getNum cpu "realtimePeriod"
  let rr ← getNum cpu "realtimeRuntime"
  let cc ← getStr cpu "cpus"
  let cm ← getStr cpu "mems"
  let km ← getNum mem "kernel"
  let kt ← getNum mem "kernelTCP"
  let ml ← getNum mem "limit"
  let mr ← getNum mem "reservation"
  let ms ← getNum mem "swap"
  let pl ← getNum pid "limit"
  pure ⟨w, cp, cq, cs, rp, rr, cc, cm, km, kt, ml, mr, ms, pl⟩

/-- The `values` array together with the `resources` global of update.c. -/
structure UpdateState where
  resources : Option String
  values : Values

/-- C `set_value (id, value)`: overwrite slot `id - FIRST_VALUE`. -/
def set_value (id : Nat) (value : String) (v : Values) : Values :=
  fun i => if i.val = id - 1000 then some value else v i

/-- The recognized resource option ids: the ids of the descriptor table,
exactly the explicit case labels of parse_opt. -/
def recognizedIds : List Nat := descrList.map (fun d => d.id)

/-- The argp key for the first special invocation of parse_opt
(ARGP_KEY_NO_ARGS of glibc argp). -/
def ARGP_KEY_NO_ARGS : Nat := 0x1000002

/-- Outcome of one parse_opt invocation: a new option state, the
ARGP_ERR_UNKNOWN rejection (state untouched), or the fatal
libcrun_fail_with_error exit. -/
inductive OptOutcome where
  | accepted (st : UpdateState)
  | unknownKey (st : UpdateState)
  | fatal

/-- `parse_opt` of update.c: key 114 is the character constant of the
resources option; the fourteen resource case labels are the contiguous enum
ids 1000 .. 1013 and store the argument via set_value; ARGP_KEY_NO_ARGS
aborts; everything else returns ARGP_ERR_UNKNOWN. -/
def parse_opt (key : Nat) (arg : String) (st : UpdateState) : OptOutcome :=
  if key = 114 then .accepted { st with resources := some arg }
  else if key = ARGP_KEY_NO_ARGS then .fatal
  else if 1000 ≤ key ∧ key < 1014 then
    .accepted { st with values := set_value key arg st.values }
  else .unknownKey st

/-- The single input source an update call hands to libcrun. -/
inductive UpdateSource where
  | fromFlags (doc : Except Unit Json)
  | fromFile (path : String)

/-- The tail of `crun_command_update`: with no `--resources` the serialized
flag document is passed to libcrun_container_update, otherwise the file path
is passed to libcrun_container_update_from_file — the flag values are not
consulted at all in that branch. -/
def crun_command_update (st : UpdateState) : UpdateSource :=
  match st.resources with
  | none => .fromFlags (build_file st.values)
  | some path => .fromFile path

/-- Modelled from the spec: the cgroup v1 write plan (libcrun's backend is
not under src/). Each set field maps to one controller-file write, sections
and fields in declared order. -/
def planDoc (d : Document) : List (String × String) :=
  (allIdx.filter (fun j => (docValues d j).isSome)).map
    (fun j => (sectionName (descr j).sectionIdx ++ "/" ++ (descr j).key,
               (docValues d j).getD ""))

/-- Result of applying an update. -/
inductive UpdateResult where
  | success
  | partialUpdate (failedPath : String)
deriving DecidableEq, Repr

/-- Modelled from the spec: sequential application of a write plan, stopping
at the first failed controller write; an empty plan succeeds. -/
def applyPlan (writeOk : String × String → Bool) :
    List (String × String) → UpdateResult
  | [] => .success
  | w :: rest => if writeOk w then applyPlan writeOk rest else .partialUpdate w.1

/-- Modelled from the spec: libcrun_container_update for a parsed Document
against a write oracle. -/
def container_update (d : Document) (writeOk : String × String → Bool) : UpdateResult :=
  applyPlan writeOk (planDoc d)

/-- Result of the `spec` command. -/
inductive SpecResult where
  | okRes
  | errStat
  | errExists
  | errOpen
  | errWrite
deriving DecidableEq, Repr

/-- Environment of one `crun_command_spec` run: whether the existence probe
itself fails, whether fopen succeeds, whether libcrun_container_spec
succeeds, and the content it writes. -/
structure SpecEnv where
  statErr : Bool
  fopenOk : Bool
  specWriteOk : Bool
  specContent : String

/-- `crun_command_spec` of spec.c over a one-file filesystem model (the
content of ./config.json, or none). crun_path_exists failing aborts with its
error; an existing config.json aborts with the dedicated error before any
open; otherwise fopen w+ creates the file and libcrun_container_spec writes
the default spec into it. -/
def crun_command_spec (fs : Option String) (env : SpecEnv) :
    Option String × SpecResult :=
  if env.statErr then (fs, .errStat)
  else
    match fs with
    | some c => (some c, .errExists)
    | none =>
        if env.fopenOk then
          if env.specWriteOk then (some env.specContent, .okRes)
          else (some "", .errWrite)
        else (none, .errOpen)

/-- The child branch of the seccomp-listener probe of tests/init.c: set
no-new-privileges first (exit 1 on failure), then install the always-allow
filter with SECCOMP_FILTER_FLAG_NEW_LISTENER; the C treats a return at or
below zero as failure (`if (ret <= 0) return 1`). -/
def probe_child (prctlOk : Bool) (seccompRet : Int) : Nat :=
  if prctlOk then (if seccompRet ≤ 0 then 1 else 0) else 1

/-- The `check-feature seccomp-listener` probe of tests/init.c: without
seccomp compiled in it exits 1; a failed fork exits 1; otherwise the parent
exits 0 exactly when the child exited 0. The child environment is the pair
(prctl success, seccomp syscall return value). -/
def check_feature_seccomp_listener (haveSeccomp : Bool)
    (forkRes : Option (Bool × Int)) : Nat :=
  if haveSeccomp then
    match forkRes with
    | none => 1
    | some (prctlOk, ret) => if probe_child prctlOk ret = 0 then 0 else 1
  else 1

/-- Success of the seccomp filter install per the seccomp(2) contract: the
syscall returns the new listener file descriptor (a non-negative integer) on
success and -1 on failure. -/
def installSucceeds (seccompRet : Int) : Prop := 0 ≤ seccompRet

/-- Bind of a successful Except computation. -/
theorem okBind {α β : Type} (a : α) (f : α → Except Unit β) :
    (Except.ok a >>= f) = f a := rfl

/-- Bind of a pure Except computation. -/
theorem pureBind {α β : Type} (a : α) (f : α → Except Unit β) :
    ((pure a : Except Unit α) >>= f) = f a := rfl

/-- The recognized ids are exactly the contiguous range 1000 .. 1013. -/
theorem mem_recognized_iff (k : Nat) :
    k ∈ recognizedIds ↔ 1000 ≤ k ∧ k < 1014 := by
  simp [recognizedIds, descrList]
  omega

/-- The option state after `crun update --memory abc`: slot 10 is the
MEMORY id, 1010. -/
def vAbc : Values := fun j => if j = (10 : Fin 14) then some "abc" else none

/-- C1, failing input: a non-digit numeric value is NOT fatal. strtoul
leaves errno untouched when no conversion is possible, so build_file
serializes `{"memory": {"limit": 0}}` without error, and the resulting
one-field document yields one cgroup write (of the dangerous value 0)
instead of the ValidationError with zero writes the claim requires. -/
theorem c1_nondigit_serializes_zero :
    build_file vAbc = .ok (Json.obj [("memory", Json.obj [("limit", Json.num 0)])]) ∧
    planDoc { emptyDoc with memoryLimit := some 0 } = [("memory/limit", "0")] :=
  ⟨rfl, rfl⟩

/-- C4: the empty Document serializes to the empty top-level map, parses
back to the empty Document, produces a zero-length write plan, and the
update succeeds for every write oracle. -/
theorem c4_empty_document_zero_plan_success :
    build_file emptyValues = .ok (Json.obj []) ∧
    parseDoc (Json.obj []) = .ok emptyDoc ∧
    planDoc emptyDoc = [] ∧
    ∀ writeOk, container_update emptyDoc writeOk = .success :=
  ⟨rfl, rfl, rfl, fun _ => rfl⟩

/-- C5 (amended): exactly one input source is consumed per call — the
resources file when `--resources` was given (the flag values are ignored),
the serialized flag document otherwise. -/
theorem c5_single_source (st : UpdateState) :
    (st.resources = none → crun_command_update st = .fromFlags (build_file st.values)) ∧
    (∀ p, st.resources = some p → crun_command_update st = .fromFile p) := by
  refine ⟨fun h => ?_, fun p h => ?_⟩
  · simp [crun_command_update, h]
  · simp [crun_command_update, h]

/-- Witness for C5 at a concrete state. -/
theorem c5_single_source_witness :
    crun_command_update ⟨some "r.json", emptyValues⟩ = .fromFile "r.json" :=
  (c5_single_source ⟨some "r.json", emptyValues⟩).2 "r.json" rfl

/-- The option state after `--memory 100`. -/
def vMem : Values := fun j => if j = (10 : Fin 14) then some "100" else none

/-- C5, counterexample: when `--resources r.json` and `--memory 100` are
both supplied, the call silently proceeds from the file alone — the outcome
is identical to the call with no flags at all, so a mixture is neither
rejected nor merged. -/
theorem c5_flags_ignored_with_resources :
    vMem (10 : Fin 14) = some "100" ∧
    crun_command_update ⟨some "r.json", vMem⟩ = .fromFile "r.json" ∧
    crun_command_update ⟨some "r.json", vMem⟩
      = crun_command_update ⟨some "r.json", emptyValues⟩ :=
  ⟨rfl, rfl, rfl⟩

/-- C6 (amended): the probe exits 0 exactly when seccomp support is
compiled in, the fork succeeded, no-new-privileges was set, and the filter
install returned a strictly positive listener descriptor. -/
theorem c6_probe_exit_iff_positive_fd (hs : Bool) (fr : Option (Bool × Int)) :
    check_feature_seccomp_listener hs fr = 0 ↔
      hs = true ∧ ∃ r : Int, fr = some (true, r) ∧ 0 < r := by
  cases hs with
  | false => simp [check_feature_seccomp_listener]
  | true =>
    cases fr with
    | none => simp [check_feature_seccomp_listener]
    | some pr =>
      obtain ⟨p, r⟩ := pr
      cases p with
      | false => simp [check_feature_seccomp_listener, probe_child]
      | true =>
        by_cases h : r ≤ 0 <;>
          simp [check_feature_seccomp_listener, probe_child, h] <;> omega

/-- C6, counterexample: a successful install that returns listener
descriptor 0 (a legal file descriptor, hence a successful seccomp call) is
classified as unsupported by the probe (`if (ret <= 0) return 1`), so exit
status 0 is not equivalent to install success. -/
theorem c6_fd_zero_misclassified :
    check_feature_seccomp_listener true (some (true, 0)) = 1 ∧ installSucceeds 0 :=
  ⟨rfl, le_refl 0⟩

/-- C10: if config.json exists (or its existence probe fails) the spec
command returns an error and leaves the file untouched; only when it does
not exist is it created and filled with the generated spec. -/
theorem c10_spec_never_overwrites (fs : Option String) (env : SpecEnv) :
    (∀ c, fs = some c →
      (crun_command_spec fs env).1 = some c ∧
      (crun_command_spec fs env).2 ≠ .okRes) ∧
    (fs = none → env.statErr = false → env.fopenOk = true → env.specWriteOk = true →
      crun_command_spec fs env = (some env.specContent, .okRes)) := by
  refine ⟨fun c hc => ?_, fun h1 h2 h3 h4 => ?_⟩
  · subst hc
    by_cases h : env.statErr <;> simp [crun_command_spec, h]
  · subst h1
    simp [crun_command_spec, h2, h3, h4]

/-- Witness for C10: an existing config.json is preserved and reported; a
missing one is created with the generated content. -/
theorem c10_spec_never_overwrites_witness :
    ((crun_command_spec (some "old") ⟨false, true, true, "new"⟩).1 = some "old" ∧
     (crun_command_spec (some "old") ⟨false, true, true, "new"⟩).2 ≠ .okRes) ∧
    crun_command_spec none ⟨false, true, true, "new"⟩ = (some "new", .okRes) :=
  ⟨(c10_spec_never_overwrites (some "old") ⟨false, true, true, "new"⟩).1 "old" rfl,
   (c10_spec_never_overwrites none ⟨false, true, true, "new"⟩).2 rfl rfl rfl rfl⟩

/-- C7: slot j holds the descriptor of option id 1000 + j; every recognized
id has exactly one descriptor row; a recognized resource key is accepted and
stored via set_value at that unique slot; any other key (besides the
resources flag 114 and the argp housekeeping key) is answered with
ARGP_ERR_UNKNOWN, leaving the state untouched, so it can never reach
serialization. -/
theorem c7_descriptor_mapping :
    (∀ j : Fin 14, (descr j).id = 1000 + j.val) ∧
    (∀ k ∈ recognizedIds, (descrList.filter (fun d => d.id == k)).length = 1) ∧
    (∀ k arg st, k ∈ recognizedIds →
      parse_opt k arg st = .accepted { st with values := set_value k arg st.values }) ∧
    (∀ k arg st, k ∉ recognizedIds → k ≠ 114 → k ≠ ARGP_KEY_NO_ARGS →
      parse_opt k arg st = .unknownKey st) := by
  refine ⟨by decide, by decide, fun k arg st hk => ?_, fun k arg st hk h114 hN => ?_⟩
  · have hb := (mem_recognized_iff k).mp hk
    have h1 : k ≠ 114 := by omega
    have h2 : k ≠ ARGP_KEY_NO_ARGS := by
      simp only [ARGP_KEY_NO_ARGS]
      omega
    simp [parse_opt, h1, h2, hb]
  · have hb : ¬(1000 ≤ k ∧ k < 1014) := fun h => hk ((mem_recognized_iff k).mpr h)
    simp [parse_opt, h114, hN, hb]

/-- Witness for C7: the MEMORY id 1010 is recognized and stored at its slot;
the unrecognized key 999 is rejected with the state unchanged. -/
theorem c7_descriptor_mapping_witness :
    (1010 ∈ recognizedIds ∧
      parse_opt 1010 "77" ⟨none, emptyValues⟩
        = .accepted ⟨none, set_value 1010 "77" emptyValues⟩) ∧
    (999 ∉ recognizedIds ∧
      parse_opt 999 "x" ⟨none, emptyValues⟩ = .unknownKey ⟨none, emptyValues⟩) :=
  ⟨⟨by decide, c7_descriptor_mapping.2.2.1 1010 "77" ⟨none, emptyValues⟩ (by decide)⟩,
   ⟨by decide, c7_descriptor_mapping.2.2.2 999 "x" ⟨none, emptyValues⟩ (by decide)
      (by decide) (by decide)⟩⟩

/-- The digit character of a digit value. -/
def chOf (d : Nat) : Char := Char.ofNat (48 + d)

/-- Character-level facts about digit characters, checked by computation. -/
theorem chOf_facts : ∀ d, d < 10 →
    digitVal (chOf d) = d ∧ isDigitChar (chOf d) = true := by decide

/-- A digit character is not whitespace and not a sign character. -/
theorem digit_not_space_sign (c : Char) (h : isDigitChar c = true) :
    isSpaceChar c = false ∧ c.toNat ≠ 45 ∧ c.toNat ≠ 43 := by
  simp only [isDigitChar, Bool.and_eq_true, decide_eq_true_eq] at h
  simp only [isSpaceChar, Bool.or_eq_false_iff, Bool.and_eq_false_iff]
  constructor
  · constructor
    · simp only [decide_eq_false_iff_not]
      omega
    · right
      simp only [decide_eq_false_iff_not]
      omega
  · omega

/-- All digits produced by the fuel-driven decimal expansion are below 10. -/
theorem natDigitsRev_lt : ∀ fuel n, ∀ d ∈ natDigitsRev fuel n, d < 10 := by
  intro fuel
  induction fuel with
  | zero => intro n d hd; simp [natDigitsRev] at hd
  | succ f ih =>
    intro n d hd
    by_cases h : n = 0
    · simp [natDigitsRev, h] at hd
    · simp only [natDigitsRev, if_neg h, List.mem_cons] at hd
      rcases hd with h1 | h2
      · omega
      · exact ih _ _ h2

/-- Least-significant-first value of a digit list. -/
def valRev : List Nat → Nat
  | [] => 0
  | d :: ds => d + 10 * valRev ds

/-- The fuel-driven expansion is exact whenever the fuel covers the input. -/
theorem valRev_natDigitsRev : ∀ fuel n, n ≤ fuel → valRev (natDigitsRev fuel n) = n := by
  intro fuel
  induction fuel with
  | zero => intro n h; interval_cases n; simp [natDigitsRev, valRev]
  | succ f ih =>
    intro n h
    by_cases h0 : n = 0
    · simp [natDigitsRev, h0, valRev]
    · have hrec : n / 10 ≤ f := by omega
      simp only [natDigitsRev, if_neg h0, valRev, ih _ hrec]
      omega

/-- The empty expansion happens only at zero. -/
theorem natDigitsRev_ne_nil (n : Nat) (h : n ≠ 0) : natDigitsRev n n ≠ [] := by
  cases n with
  | zero => exact absurd rfl h
  | succ m => simp [natDigitsRev, h]

/-- Folding the most-significant-first digit characters of a
least-significant-first digit list. -/
theorem foldl_rev_digits : ∀ (ds : List Nat), (∀ d ∈ ds, d < 10) → ∀ acc : Nat,
    List.foldl (fun a c => a * 10 + digitVal c) acc ((ds.reverse).map chOf)
      = acc * 10 ^ ds.length + valRev ds := by
  intro ds
  induction ds with
  | nil => intro h acc; simp [valRev]
  | cons d rest ih =>
    intro h acc
    have hd : d < 10 := h d (List.mem_cons_self d rest)
    have hrest : ∀ x ∈ rest, x < 10 := fun x hx => h x (List.mem_cons_of_mem d hx)
    simp only [List.reverse_cons, List.map_append, List.map_cons, List.map_nil,
      List.foldl_append, List.foldl_cons, List.foldl_nil, ih hrest acc]
    rw [(chOf_facts d hd).1, valRev]
    simp only [List.length_cons, pow_succ]
    ring

/-- Digit parsing inverts the decimal rendering. -/
theorem parseDigits_renderNat (n : Nat) : parseDigits (renderNat n).data = n := by
  by_cases h : n = 0
  · subst h; rfl
  · have hdata : (renderNat n).data = ((natDigitsRev n n).reverse).map chOf := by
      simp [renderNat, h, chOf]
    rw [hdata]
    unfold parseDigits
    rw [foldl_rev_digits (natDigitsRev n n) (natDigitsRev_lt n n) 0]
    simp [valRev_natDigitsRev n n (le_refl n)]

/-- Every character of the decimal rendering is a digit. -/
theorem renderNat_digits (n : Nat) : ∀ c ∈ (renderNat n).data, isDigitChar c = true := by
  by_cases h : n = 0
  · subst h; intro c hc; simp [renderNat] at hc; subst hc; decide
  · intro c hc
    have hdata : (renderNat n).data = ((natDigitsRev n n).reverse).map chOf := by
      simp [renderNat, h, chOf]
    rw [hdata] at hc
    obtain ⟨d, hd, rfl⟩ := List.mem_map.mp hc
    exact (chOf_facts d (natDigitsRev_lt n n d (List.mem_reverse.mp hd))).2

/-- The decimal rendering is never the empty string. -/
theorem renderNat_ne_nil (n : Nat) : (renderNat n).data ≠ [] := by
  by_cases h : n = 0
  · subst h; simp [renderNat]
  · have hdata : (renderNat n).data = ((natDigitsRev n n).reverse).map chOf := by
      simp [renderNat, h, chOf]
    rw [hdata]
    simp only [ne_eq, List.map_eq_nil_iff, List.reverse_eq_nil_iff]
    exact natDigitsRev_ne_nil n h

/-- A maximal digit run over an all-digit list is the whole list. -/
theorem takeWhile_all_digits : ∀ l : List Char, (∀ c ∈ l, isDigitChar c = true) →
    l.takeWhile isDigitChar = l := by
  intro l
  induction l with
  | nil => intro h; rfl
  | cons c rest ih =>
    intro h
    have hc : isDigitChar c = true := h c (List.mem_cons_self c rest)
    simp only [List.takeWhile_cons, hc, if_true]
    rw [ih (fun x hx => h x (List.mem_cons_of_mem c hx))]

/-- strtoul on a nonempty all-digit string: the parsed value, with ERANGE
exactly on overflow past ULONG_MAX. -/
theorem strtoul10_digits (s : String) (h1 : s.data ≠ [])
    (h2 : ∀ c ∈ s.data, isDigitChar c = true) :
    strtoul10 s =
      if parseDigits s.data > ULONG_MAX then ⟨ULONG_MAX, true⟩
      else ⟨parseDigits s.data, false⟩ := by
  obtain ⟨c, rest, hcr⟩ : ∃ c rest, s.data = c :: rest := by
    cases hd : s.data with
    | nil => exact absurd hd h1
    | cons a l => exact ⟨a, l, rfl⟩
  have hc : isDigitChar c = true := h2 c (by rw [hcr]; exact List.mem_cons_self c rest)
  obtain ⟨hsp, h45, h43⟩ := digit_not_space_sign c hc
  unfold strtoul10
  rw [hcr]
  simp only [List.dropWhile_cons, hsp, Bool.false_eq_true, if_false]
  simp only [dropSign, h45, h43, if_false]
  rw [show (c :: rest).takeWhile isDigitChar = c :: rest from
    takeWhile_all_digits (c :: rest) (fun x hx => h2 x (by rw [hcr]; exact hx))]
  by_cases hov : parseDigits (c :: rest) > ULONG_MAX
  · simp [hov]
  · simp [hov]

/-- strtoul exactly recovers a rendered natural number up to ULONG_MAX. -/
theorem strtoul10_renderNat (n : Nat) (h : n ≤ ULONG_MAX) :
    strtoul10 (renderNat n) = ⟨n, false⟩ := by
  rw [strtoul10_digits (renderNat n) (renderNat_ne_nil n) (renderNat_digits n),
    parseDigits_renderNat n]
  simp only [gt_iff_lt, ite_eq_right_iff]
  intro hlt
  omega

/-- C8 (amended): a numeric field whose value string is a nonempty digit
string with value below 2^63 is emitted exactly, as a non-negative JSON
number equal to the parsed value. (At or above 2^63 the long cast of
build_file flips the sign; at or above 2^64 strtoul reports ERANGE and the
serialization is fatal.) -/
theorem c8_exact_below_2pow63 (v : Values) (j : Fin 14) (s : String)
    (hnum : (descr j).numeric = true) (hv : v j = some s)
    (hne : s.data ≠ []) (hdig : ∀ c ∈ s.data, isDigitChar c = true)
    (hlt : parseDigits s.data < 2 ^ 63) :
    emitField v j = .ok [((descr j).key, Json.num (Int.ofNat (parseDigits s.data)))] := by
  have hs := strtoul10_digits s hne hdig
  have hov : ¬ parseDigits s.data > ULONG_MAX := by
    simp only [ULONG_MAX, gt_iff_lt, not_lt]
    omega
  rw [if_neg hov] at hs
  simp [emitField, hv, hnum, hs, toLong, hlt]
  omega

/-- Witness for C8: `--memory 100` is emitted as the number 100. -/
theorem c8_exact_below_2pow63_witness :
    (descr (10 : Fin 14)).numeric = true ∧
    emitField vMem (10 : Fin 14)
      = .ok [("limit", Json.num (Int.ofNat (parseDigits ("100" : String).data)))] :=
  ⟨by decide,
   c8_exact_below_2pow63 vMem (10 : Fin 14) "100" (by decide) rfl (by decide)
     (by decide) (by decide)⟩

/-- The option state after `--memory 9223372036854775808` (= 2^63). -/
def vBig : Values :=
  fun j => if j = (10 : Fin 14) then some "9223372036854775808" else none

/-- C8, counterexample: 2^63 is a valid unsigned digit string and is
representable as an unsigned long, yet the emitted number is the negative
two's-complement reinterpretation -2^63, not the input value. -/
theorem c8_wraparound_at_2pow63 :
    (∀ c ∈ ("9223372036854775808" : String).data, isDigitChar c = true) ∧
    parseDigits ("9223372036854775808" : String).data = 9223372036854775808 ∧
    emitField vBig (10 : Fin 14) = .ok [("limit", Json.num (-9223372036854775808))] :=
  ⟨by decide, rfl, rfl⟩

/-- Every slot index is in the loop list. -/
theorem mem_allIdx : ∀ j : Fin 14, j ∈ allIdx := by decide

/-- Unfolding of the executable overflow check to its per-slot meaning. -/
theorem noRangeErrB_spec (v : Values) (h : noRangeErrB v = true) :
    ∀ j : Fin 14, ∀ s, v j = some s → (descr j).numeric = true →
      (strtoul10 s).rangeErr = false := by
  intro j s hv hn
  have hall := List.all_eq_true.mp h j (mem_allIdx j)
  rw [hv] at hall
  simp only [hn, Bool.not_true, Bool.false_or] at hall
  simpa using hall

/-- A field emission never fails when its value does not overflow, and its
output is the optional canonical entry. -/
theorem emitField_ok (v : Values) (j : Fin 14)
    (h : ∀ s, v j = some s → (descr j).numeric = true → (strtoul10 s).rangeErr = false) :
    emitField v j = .ok (optEntry (descr j).key (fieldJson v j)) := by
  cases hv : v j with
  | none => simp [emitField, hv, fieldJson, optEntry]
  | some s =>
    by_cases hn : (descr j).numeric = true
    · have hr := h s hv hn
      simp [emitField, hv, hn, hr, fieldJson, optEntry]
    · simp only [Bool.not_eq_true] at hn
      simp [emitField, hv, hn, fieldJson, optEntry]

/-- The emission loop over any slot list is the concatenation of the
optional canonical entries, when every step succeeds. -/
theorem emitList_ok (v : Values) (l : List (Fin 14))
    (h : ∀ j ∈ l, emitField v j = .ok (optEntry (descr j).key (fieldJson v j))) :
    emitList v l
      = .ok ((l.map (fun j => optEntry (descr j).key (fieldJson v j))).flatten) := by
  induction l with
  | nil => rfl
  | cons a l ih =>
    show (emitField v a >>= fun x => emitList v l >>= fun xs => pure (x ++ xs)) = _
    rw [h a (List.mem_cons_self a l), okBind,
      ih (fun j hj => h j (List.mem_cons_of_mem a hj)), okBind]
    rfl

/-- The inner section loop produces exactly the canonical section body. -/
theorem emitSection_ok (v : Values) (i : Fin 4)
    (hnr : ∀ j : Fin 14, ∀ s, v j = some s → (descr j).numeric = true →
      (strtoul10 s).rangeErr = false) :
    emitSection v i = .ok (canonicalFields v i) :=
  emitList_ok v _ (fun j _ => emitField_ok v j (fun s hs hn => hnr j s hs hn))

/-- The outer section loop produces exactly the canonical top-level
entries. -/
theorem buildSections_ok (v : Values)
    (hnr : ∀ j : Fin 14, ∀ s, v j = some s → (descr j).numeric = true →
      (strtoul10 s).rangeErr = false) :
    ∀ li : List (Fin 4),
      buildSections v li = .ok ((li.map (fun i =>
        optEntry (sectionName i)
          (if hasSection v i then some (Json.obj (canonicalFields v i)) else none))).flatten) := by
  intro li
  induction li with
  | nil => rfl
  | cons i rest ih =>
    simp only [buildSections]
    by_cases hsec : hasSection v i
    · rw [if_pos hsec, emitSection_ok v i hnr, okBind, pureBind, ih, okBind]
      simp [optEntry, hsec]
      rfl
    · rw [if_neg hsec, pureBind, ih, okBind]
      simp only [Bool.not_eq_true] at hsec
      simp [optEntry, hsec]
      rfl

/-- build_file refines the canonical serialization whenever no numeric
value overflows. -/
theorem build_eq_canonical (v : Values)
    (hnr : ∀ j : Fin 14, ∀ s, v j = some s → (descr j).numeric = true →
      (strtoul10 s).rangeErr = false) :
    build_file v = .ok (canonicalJson v) := by
  simp only [build_file]
  rw [buildSections_ok v hnr allSec, okBind]
  rfl

/-- C3: for every option assignment whose numeric values do not overflow
strtoul, build_file emits exactly the sections having a set field and
exactly the set fields, sections in declared order blockIO, cpu, memory,
pids, fields in declared descriptor order independent of supply order,
numeric fields as JSON numbers and cpuset fields as JSON strings — the
canonical serialization. -/
theorem c3_canonical_serialization (v : Values) (h : noRangeErrB v = true) :
    build_file v = .ok (canonicalJson v) :=
  build_eq_canonical v (noRangeErrB_spec v h)

/-- The option state after `--memory 7 --cpuset-cpus 0-1`. -/
def vSample : Values :=
  fun j => if j = (10 : Fin 14) then some "7"
           else if j = (6 : Fin 14) then some "0-1" else none

/-- Witness for C3 at a concrete two-flag state. -/
theorem c3_canonical_serialization_witness :
    noRangeErrB vSample = true ∧ build_file vSample = .ok (canonicalJson vSample) :=
  ⟨rfl, c3_canonical_serialization vSample rfl⟩

/-- Repeated parse_opt resource-option calls as state evolution: the C argp
loop invokes set_value once per supplied option, in supply order. -/
def applyValues (v : Values) (ops : List (Nat × String)) : Values :=
  ops.foldl (fun acc p => set_value p.1 p.2 acc) v

/-- The value of the last occurrence of key `k` in a supplied option list. -/
def lastVal : List (Nat × String) → Nat → Option String
  | [], _ => none
  | p :: rest, k =>
      match lastVal rest k with
      | some s => some s
      | none => if p.1 = k then some p.2 else none

/-- The value slot of a recognized option id. -/
def idxOf (k : Nat) : Fin 14 := ⟨(k - 1000) % 14, Nat.mod_lt _ (by decide)⟩

/-- Within the option table, section and key together determine the slot. -/
theorem descrKey_inj : ∀ a b : Fin 14,
    (descr a).sectionIdx = (descr b).sectionIdx → (descr a).key = (descr b).key →
    a = b := by decide

/-- The loop index list has no duplicates. -/
theorem allIdx_nodup : allIdx.Nodup := by decide

/-- Overwrite semantics of the option store: after a supplied option list,
the slot of a recognized id holds the last value supplied for it, or its
prior content if it was never supplied. -/
theorem applyValues_lastVal (k : Nat) (hk : k ∈ recognizedIds) :
    ∀ (ops : List (Nat × String)) (v : Values), (∀ p ∈ ops, p.1 ∈ recognizedIds) →
      applyValues v ops (idxOf k) =
        match lastVal ops k with
        | some s => some s
        | none => v (idxOf k) := by
  intro ops
  induction ops with
  | nil => intro v h; rfl
  | cons p rest ih =>
    intro v h
    have hp : p.1 ∈ recognizedIds := h p (List.mem_cons_self p rest)
    have hbk := (mem_recognized_iff k).mp hk
    have hbp := (mem_recognized_iff p.1).mp hp
    show applyValues (set_value p.1 p.2 v) rest (idxOf k) = _
    rw [ih (set_value p.1 p.2 v) (fun q hq => h q (List.mem_cons_of_mem p hq))]
    cases hlv : lastVal rest k with
    | some s => simp [lastVal, hlv]
    | none =>
      simp only [lastVal, hlv]
      have hval : (idxOf k).val = k - 1000 := Nat.mod_eq_of_lt (by omega)
      simp only [set_value, hval]
      by_cases he : p.1 = k
      · rw [if_pos (by omega), if_pos he]
      · rw [if_neg (by omega), if_neg he]

/-- A successful field emission is the optional canonical entry. -/
theorem emitField_shape (v : Values) (j : Fin 14) (x : List (String × Json))
    (h : emitField v j = .ok x) :
    x = optEntry (descr j).key (fieldJson v j) := by
  cases hv : v j with
  | none =>
    simp [emitField, hv] at h
    simp [fieldJson, hv, optEntry, ← h]
  | some s =>
    by_cases hn : (descr j).numeric = true
    · by_cases hr : (strtoul10 s).rangeErr = true
      · simp [emitField, hv, hn, hr] at h
      · simp only [Bool.not_eq_true] at hr
        simp [emitField, hv, hn, hr] at h
        simp [fieldJson, hv, hn, optEntry, ← h]
    · simp only [Bool.not_eq_true] at hn
      simp [emitField, hv, hn] at h
      simp [fieldJson, hv, hn, optEntry, ← h]

/-- A successful emission loop output is the concatenation of the optional
canonical entries of its slots. -/
theorem emitList_shape (v : Values) : ∀ (l : List (Fin 14)) (out : List (String × Json)),
    emitList v l = .ok out →
    out = (l.map (fun j => optEntry (descr j).key (fieldJson v j))).flatten := by
  intro l
  induction l with
  | nil =>
    intro out h
    simp [emitList] at h
    simp [← h]
  | cons a l ih =>
    intro out h
    cases hf : emitField v a with
    | error e =>
      rw [show emitList v (a :: l)
            = (emitField v a >>= fun x => emitList v l >>= fun xs => pure (x ++ xs))
          from rfl, hf] at h
      exact absurd h (by simp [Bind.bind, Except.bind])
    | ok x =>
      rw [show emitList v (a :: l)
            = (emitField v a >>= fun x => emitList v l >>= fun xs => pure (x ++ xs))
          from rfl, hf, okBind] at h
      cases hl : emitList v l with
      | error e =>
        rw [hl] at h
        exact absurd h (by simp [Bind.bind, Except.bind])
      | ok xs =>
        rw [hl, okBind] at h
        have hout : out = x ++ xs := by
          have := h
          simp only [pure, Except.pure, Except.ok.injEq] at this
          exact this.symm
        rw [hout, emitField_shape v a x hf, ih xs hl]
        simp

/-- Filtering an optional entry by its own key keeps it. -/
theorem filter_optEntry_self (k : String) (o : Option Json) :
    (optEntry k o).filter (fun p => p.1 == k) = optEntry k o := by
  cases o <;> simp [optEntry]

/-- Filtering an optional entry by a different key removes it. -/
theorem filter_optEntry_ne (k2 k : String) (o : Option Json) (h : k2 ≠ k) :
    (optEntry k2 o).filter (fun p => p.1 == k) = [] := by
  cases o <;> simp [optEntry, h]

/-- Filtering a concatenation of optional entries by a key foreign to every
index yields nothing. -/
theorem filter_join_keys_ne {ι : Type} (key : ι → String) (f : ι → Option Json)
    (kk : String) :
    ∀ l : List ι, (∀ b ∈ l, key b ≠ kk) →
      ((l.map (fun j => optEntry (key j) (f j))).flatten.filter
        (fun p => p.1 == kk)) = [] := by
  intro l
  induction l with
  | nil => intro h; rfl
  | cons a l ih =>
    intro h
    rw [List.map_cons, List.flatten_cons, List.filter_append,
      filter_optEntry_ne _ _ _ (h a (List.mem_cons_self a l)),
      ih (fun b hb => h b (List.mem_cons_of_mem a hb))]
    rfl

/-- Filtering a concatenation of optional entries over a duplicate-free,
key-injective index list by the key of a member index isolates exactly that
index's entry. -/
theorem filter_join_optEntry {ι : Type} (key : ι → String) (f : ι → Option Json)
    (j0 : ι) :
    ∀ l : List ι, l.Nodup → j0 ∈ l →
      (∀ a ∈ l, ∀ b ∈ l, key a = key b → a = b) →
      ((l.map (fun j => optEntry (key j) (f j))).flatten.filter
        (fun p => p.1 == key j0))
        = optEntry (key j0) (f j0) := by
  intro l
  induction l with
  | nil => intro _ hmem _; cases hmem
  | cons a l ih =>
    intro hnd hmem hinj
    rw [List.map_cons, List.flatten_cons, List.filter_append]
    by_cases he : a = j0
    · subst he
      have hnotin : a ∉ l := (List.nodup_cons.mp hnd).1
      have hkeys : ∀ b ∈ l, key b ≠ key a := by
        intro b hb hkb
        exact hnotin ((hinj a (List.mem_cons_self a l) b (List.mem_cons_of_mem a hb)
          hkb.symm) ▸ hb)
      rw [filter_optEntry_self, filter_join_keys_ne key f _ l hkeys, List.append_nil]
    · have hmem2 : j0 ∈ l := by
        rcases List.mem_cons.mp hmem with h1 | h1
        · exact absurd h1.symm he
        · exact h1
      have hkey : key a ≠ key j0 := fun hkk =>
        he (hinj a (List.mem_cons_self a l) j0 (List.mem_cons_of_mem a hmem2) hkk)
      rw [filter_optEntry_ne _ _ _ hkey,
        ih (List.nodup_cons.mp hnd).2 hmem2
          (fun x hx y hy => hinj x (List.mem_cons_of_mem a hx) y (List.mem_cons_of_mem a hy))]
      rfl

/-- C9: if the same recognized resource option is supplied repeatedly, the
final option store holds the last value supplied, and the emitted section
body contains that field's key exactly once, bound to the serialization of
that last value. -/
theorem c9_last_value_wins (v : Values) (ops : List (Nat × String)) (k : Nat) (s : String)
    (hops : ∀ p ∈ ops, p.1 ∈ recognizedIds) (hk : k ∈ recognizedIds)
    (hlast : lastVal ops k = some s) :
    applyValues v ops (idxOf k) = some s ∧
    ∀ out, emitSection (applyValues v ops) (descr (idxOf k)).sectionIdx = .ok out →
      out.filter (fun p => p.1 == (descr (idxOf k)).key)
        = [((descr (idxOf k)).key,
            if (descr (idxOf k)).numeric then Json.num (toLong (strtoul10 s).value)
            else Json.str s)] := by
  have h1 : applyValues v ops (idxOf k) = some s := by
    rw [applyValues_lastVal k hk ops v hops, hlast]
  refine ⟨h1, fun out hout => ?_⟩
  have hshape := emitList_shape (applyValues v ops) _ out hout
  rw [hshape, filter_join_optEntry (fun j => (descr j).key)
    (fun j => fieldJson (applyValues v ops) j) (idxOf k) _
    (allIdx_nodup.filter _)
    (List.mem_filter.mpr ⟨mem_allIdx (idxOf k), by simp⟩)
    (fun a ha b hb hkk => descrKey_inj a b
      (by
        have ha2 := (List.mem_filter.mp ha).2
        have hb2 := (List.mem_filter.mp hb).2
        simp only [beq_iff_eq] at ha2 hb2
        rw [ha2, hb2])
      hkk)]
  simp [fieldJson, h1, optEntry]

/-- Witness for C9: `--memory 1 --memory 2` stores "2" and serializes the
memory section with a single limit entry holding 2. -/
theorem c9_last_value_wins_witness :
    applyValues emptyValues [(1010, "1"), (1010, "2")] (idxOf 1010) = some "2" ∧
    emitSection (applyValues emptyValues [(1010, "1"), (1010, "2")])
      (descr (idxOf 1010)).sectionIdx = .ok [("limit", Json.num 2)] ∧
    ([("limit", Json.num 2)] : List (String × Json)).filter
      (fun p => p.1 == (descr (idxOf 1010)).key) = [("limit", Json.num 2)] :=
  ⟨(c9_last_value_wins emptyValues [(1010, "1"), (1010, "2")] 1010 "2"
      (by decide) (by decide) rfl).1,
   rfl,
   (c9_last_value_wins emptyValues [(1010, "1"), (1010, "2")] 1010 "2"
      (by decide) (by decide) rfl).2 [("limit", Json.num 2)] rfl⟩

/-- A first-match lookup is the head of the key filter. -/
theorem jlookup_eq_filter_head (k : String) :
    ∀ l : List (String × Json),
      jlookup l k = ((l.filter (fun p => p.1 == k)).head?).map Prod.snd := by
  intro l
  induction l with
  | nil => rfl
  | cons p rest ih =>
    obtain ⟨k2, x⟩ := p
    by_cases h : k2 = k
    · subst h
      simp [jlookup, List.filter_cons]
    · simp [jlookup, List.filter_cons, h, ih]

/-- The optional top-level entry of one section. -/
def secOpt (v : Values) (i : Fin 4) : Option Json :=
  if hasSection v i then some (Json.obj (canonicalFields v i)) else none

/-- Every section index is in the section loop list. -/
theorem mem_allSec : ∀ i : Fin 4, i ∈ allSec := by decide

/-- Section names are pairwise distinct. -/
theorem sectionName_inj : ∀ a b : Fin 4, sectionName a = sectionName b → a = b := by
  decide

/-- Reading a section of the canonical document yields its canonical body,
or nothing when the section was suppressed. -/
theorem getSection_canonical (v : Values) (i : Fin 4) :
    getSection (canonicalJson v) (sectionName i)
      = if hasSection v i then canonicalFields v i else [] := by
  have hf := filter_join_optEntry sectionName (fun i2 => secOpt v i2) i allSec
    (by decide) (mem_allSec i) (fun a _ b _ hab => sectionName_inj a b hab)
  simp only [getSection, canonicalJson]
  rw [jlookup_eq_filter_head,
    show canonicalSections v
        = (allSec.map (fun i2 => optEntry (sectionName i2) (secOpt v i2))).flatten
      from rfl,
    hf]
  unfold secOpt
  by_cases h : hasSection v i <;> simp [h, optEntry]

/-- Looking up a slot's key inside its section's canonical body yields
exactly that slot's optional value. -/
theorem jlookup_canonicalFields (v : Values) (j0 : Fin 14) :
    jlookup (canonicalFields v (descr j0).sectionIdx) ((descr j0).key)
      = fieldJson v j0 := by
  have hf := filter_join_optEntry (fun j => (descr j).key) (fun j => fieldJson v j) j0
    (allIdx.filter (fun j => (descr j).sectionIdx == (descr j0).sectionIdx))
    (allIdx_nodup.filter _)
    (List.mem_filter.mpr ⟨mem_allIdx j0, by simp⟩)
    (fun a ha b hb hkk => descrKey_inj a b
      (by
        have ha2 := (List.mem_filter.mp ha).2
        have hb2 := (List.mem_filter.mp hb).2
        simp only [beq_iff_eq] at ha2 hb2
        rw [ha2, hb2])
      hkk)
  unfold canonicalFields
  rw [jlookup_eq_filter_head, hf]
  cases hfj : fieldJson v j0 with
  | none => simp [optEntry, hfj]
  | some x => simp [optEntry, hfj]

/-- A suppressed section has no set slot. -/
theorem hasSection_false_none (v : Values) (i : Fin 4) (j : Fin 14)
    (hj : (descr j).sectionIdx = i) (h : hasSection v i = false) : v j = none := by
  have hall := (List.any_eq_false.mp h) j (mem_allIdx j)
  rw [hj] at hall
  simp only [beq_self_eq_true, Bool.and_true] at hall
  cases hv : v j with
  | none => rfl
  | some s => rw [hv] at hall; simp at hall

/-- Reading back a numeric field of the canonical serialization of a value
assignment that renders an optional number below 2^63 recovers that
number. -/
theorem getNum_canonical (v : Values) (j : Fin 14) (o : Option Nat)
    (hnum : (descr j).numeric = true)
    (hv : v j = o.map renderNat)
    (hb : ∀ n, o = some n → n < 2 ^ 63) :
    getNum (getSection (canonicalJson v) (sectionName (descr j).sectionIdx))
      ((descr j).key) = .ok o := by
  unfold getNum
  rw [getSection_canonical v (descr j).sectionIdx]
  by_cases h : hasSection v (descr j).sectionIdx
  · rw [if_pos h, jlookup_canonicalFields v j]
    cases o with
    | none =>
      have hvj : v j = none := by simpa using hv
      simp [fieldJson, hvj, numOf]
    | some n =>
      have hn := hb n rfl
      have hvj : v j = some (renderNat n) := by simpa using hv
      have hr : strtoul10 (renderNat n) = ⟨n, false⟩ :=
        strtoul10_renderNat n (by simp only [ULONG_MAX]; omega)
      have ht : toLong n = (n : Int) := by
        simp only [toLong]
        rw [if_pos hn]
      simp [fieldJson, hvj, hnum, hr, numOf, ht]
  · rw [if_neg h]
    have hvj : v j = none :=
      hasSection_false_none v _ j rfl (by simpa using h)
    rw [hvj] at hv
    cases o with
    | none => simp [jlookup, numOf]
    | some n => simp at hv

/-- Reading back a cpuset field of the canonical serialization recovers the
stored string. -/
theorem getStr_canonical (v : Values) (j : Fin 14) (o : Option String)
    (hnum : (descr j).numeric = false)
    (hv : v j = o) :
    getStr (getSection (canonicalJson v) (sectionName (descr j).sectionIdx))
      ((descr j).key) = .ok o := by
  unfold getStr
  rw [getSection_canonical v (descr j).sectionIdx]
  by_cases h : hasSection v (descr j).sectionIdx
  · rw [if_pos h, jlookup_canonicalFields v j]
    cases o with
    | none =>
      have hvj : v j = none := hv
      simp [fieldJson, hvj, strOf]
    | some s =>
      have hvj : v j = some s := hv
      simp [fieldJson, hvj, hnum, strOf]
  · rw [if_neg h]
    have hvj : v j = none :=
      hasSection_false_none v _ j rfl (by simpa using h)
    rw [hvj] at hv
    cases o with
    | none => simp [jlookup, strOf]
    | some s => simp at hv

/-- A passing optional bound check bounds the contained value. -/
theorem optAll_bound (o : Option Nat) (b : Nat)
    (h : o.all (fun n => decide (n < b)) = true) : ∀ n, o = some n → n < b := by
  intro n hn
  subst hn
  simpa [Option.all] using h

/-- A bounded optional number whose rendering is a set option string
never overflows strtoul. -/
theorem rangeOk (o : Option Nat) (hb : ∀ n, o = some n → n < 2 ^ 63)
    (s : String) (hv : o.map renderNat = some s) : (strtoul10 s).rangeErr = false := by
  cases o with
  | none => simp at hv
  | some n =>
    have hsn : renderNat n = s := by simpa using hv
    have hle : n ≤ ULONG_MAX := by
      have := hb n rfl
      simp only [ULONG_MAX]
      omega
    rw [← hsn, strtoul10_renderNat n hle]

/-- C2 (amended): for every Document built only from option-representable
fields whose numeric values are all below 2^63, parsing the serialized
canonical bytes yields the original Document. (At 2^63 and above the long
cast inside build_file emits a negative number, which the unsigned-integer
document reader rejects, so the unrestricted round-trip law fails.) -/
theorem c2_roundtrip_below_2pow63 (d : Document) (h : allNumLtB d (2 ^ 63) = true) :
    (serializeDoc d >>= parseDoc) = .ok d := by
  simp only [allNumLtB, numFields, List.all_cons, List.all_nil, Bool.and_eq_true,
    Bool.and_true, and_true] at h
  obtain ⟨hb1, hb2, hb3, hb4, hb5, hb6, hb7, hb8, hb9, hb10, hb11, hb12⟩ := h
  have B1 := optAll_bound d.blkioWeight _ hb1
  have B2 := optAll_bound d.cpuPeriod _ hb2
  have B3 := optAll_bound d.cpuQuota _ hb3
  have B4 := optAll_bound d.cpuShare _ hb4
  have B5 := optAll_bound d.cpuRtPeriod _ hb5
  have B6 := optAll_bound d.cpuRtRuntime _ hb6
  have B7 := optAll_bound d.kernelMemory _ hb7
  have B8 := optAll_bound d.kernelMemoryTcp _ hb8
  have B9 := optAll_bound d.memoryLimit _ hb9
  have B10 := optAll_bound d.memoryReservation _ hb10
  have B11 := optAll_bound d.memorySwap _ hb11
  have B12 := optAll_bound d.pidsLimit _ hb12
  have hnr : ∀ j : Fin 14, ∀ s, docValues d j = some s → (descr j).numeric = true →
      (strtoul10 s).rangeErr = false := by
    intro j s hvs hn
    fin_cases j
    · exact rangeOk d.blkioWeight B1 s hvs
    · exact rangeOk d.cpuPeriod B2 s hvs
    · exact rangeOk d.cpuQuota B3 s hvs
    · exact rangeOk d.cpuShare B4 s hvs
    · exact rangeOk d.cpuRtPeriod B5 s hvs
    · exact rangeOk d.cpuRtRuntime B6 s hvs
    · exact Bool.noConfusion hn
    · exact Bool.noConfusion hn
    · exact rangeOk d.kernelMemory B7 s hvs
    · exact rangeOk d.kernelMemoryTcp B8 s hvs
    · exact rangeOk d.memoryLimit B9 s hvs
    · exact rangeOk d.memoryReservation B10 s hvs
    · exact rangeOk d.memorySwap B11 s hvs
    · exact rangeOk d.pidsLimit B12 s hvs
  have hser : serializeDoc d = .ok (canonicalJson (docValues d)) :=
    build_eq_canonical (docValues d) hnr
  rw [hser, okBind]
  have e1 : getNum (getSection (canonicalJson (docValues d)) "blockIO") "weight"
      = .ok d.blkioWeight := getNum_canonical (docValues d) 0 d.blkioWeight rfl rfl B1
  have e2 : getNum (getSection (canonicalJson (docValues d)) "cpu") "period"
      = .ok d.cpuPeriod := getNum_canonical (docValues d) 1 d.cpuPeriod rfl rfl B2
  have e3 : getNum (getSection (canonicalJson (docValues d)) "cpu") "quota"
      = .ok d.cpuQuota := getNum_canonical (docValues d) 2 d.cpuQuota rfl rfl B3
  have e4 : getNum (getSection (canonicalJson (docValues d)) "cpu") "share"
      = .ok d.cpuShare := getNum_canonical (docValues d) 3 d.cpuShare rfl rfl B4
  have e5 : getNum (getSection (canonicalJson (docValues d)) "cpu") "realtimePeriod"
      = .ok d.cpuRtPeriod := getNum_canonical (docValues d) 4 d.cpuRtPeriod rfl rfl B5
  have e6 : getNum (getSection (canonicalJson (docValues d)) "cpu") "realtimeRuntime"
      = .ok d.cpuRtRuntime := getNum_canonical (docValues d) 5 d.cpuRtRuntime rfl rfl B6
  have e7 : getStr (getSection (canonicalJson (docValues d)) "cpu") "cpus"
      = .ok d.cpusetCpus := getStr_canonical (docValues d) 6 d.cpusetCpus rfl rfl
  have e8 : getStr (getSection (canonicalJson (docValues d)) "cpu") "mems"
      = .ok d.cpusetMems := getStr_canonical (docValues d) 7 d.cpusetMems rfl rfl
  have e9 : getNum (getSection (canonicalJson (docValues d)) "memory") "kernel"
      = .ok d.kernelMemory := getNum_canonical (docValues d) 8 d.kernelMemory rfl rfl B7
  have e10 : getNum (getSection (canonicalJson (docValues d)) "memory") "kernelTCP"
      = .ok d.kernelMemoryTcp :=
    getNum_canonical (docValues d) 9 d.kernelMemoryTcp rfl rfl B8
  have e11 : getNum (getSection (canonicalJson (docValues d)) "memory") "limit"
      = .ok d.memoryLimit := getNum_canonical (docValues d) 10 d.memoryLimit rfl rfl B9
  have e12 : getNum (getSection (canonicalJson (docValues d)) "memory") "reservation"
      = .ok d.memoryReservation :=
    getNum_canonical (docValues d) 11 d.memoryReservation rfl rfl B10
  have e13 : getNum (getSection (canonicalJson (docValues d)) "memory") "swap"
      = .ok d.memorySwap := getNum_canonical (docValues d) 12 d.memorySwap rfl rfl B11
  have e14 : getNum (getSection (canonicalJson (docValues d)) "pids") "limit"
      = .ok d.pidsLimit := getNum_canonical (docValues d) 13 d.pidsLimit rfl rfl B12
  simp only [parseDoc, e1, e2, e3, e4, e5, e6, e7, e8, e9, e10, e11, e12, e13, e14,
    okBind]
  rfl

/-- The Document with memory limit 2^63. -/
def dBig : Document := { emptyDoc with memoryLimit := some 9223372036854775808 }

/-- C2, counterexample: for the option-representable Document with
memory.limit = 2^63 the serializer emits the negative number -2^63 (long
cast), the reader rejects it, and the round trip fails. -/
theorem c2_roundtrip_fails_at_2pow63 :
    (serializeDoc dBig >>= parseDoc) = .error () ∧
    (serializeDoc dBig >>= parseDoc) ≠ .ok dBig := by
  refine ⟨rfl, fun hcontra => ?_⟩
  rw [show (serializeDoc dBig >>= parseDoc) = .error () from rfl] at hcontra
  exact Except.noConfusion hcontra

/-- The Document with memory limit 7 and cpuset cpus 0-1. -/
def dSample : Document :=
  { emptyDoc with memoryLimit := some 7, cpusetCpus := some "0-1" }

/-- Witness for C2 at a concrete two-field Document. -/
theorem c2_roundtrip_below_2pow63_witness :
    allNumLtB dSample (2 ^ 63) = true ∧
    (serializeDoc dSample >>= parseDoc) = .ok dSample :=
  ⟨rfl, c2_roundtrip_below_2pow63 dSample rfl⟩
